import Mathlib

/-!
# Verification of `stackie::sstring` (stack allocated string)

Shallow embedding of `src/src/stackie/sstring.hpp`. A char buffer is a
`List Nat` of byte values; the null terminator is the byte `0`. An
`sstring N` holds the raw buffer `s` of `N + 1` chars (`char s[N + 1]`).

Stateful C++ operations are modelled as explicit state passing: every
constructor takes the (arbitrary, "uninitialized") stack memory `mem` the
object is created over, because the C++ converting constructors run
`*this = rhs` on an uninitialized buffer.
-/

namespace stackie

namespace details

/-- Model of `std::copy_n(src, n, dst)`: the first `n` chars of `dst` are
replaced by the first `n` chars of `src` (meaningful when `n ≤ src.length`,
which holds at every call site, see the safety lemmas). -/
def copy_n (src : List Nat) (n : Nat) (dst : List Nat) : List Nat :=
  src.take n ++ dst.drop n

/-- `details::copy_n_impl<N>(src, src_len, dst)` from sstring.hpp:
`min_len = min(src_len, N); copy_n(src, min_len, dst); dst[min_len] = 0`. -/
def copy_n_impl (N : Nat) (src : List Nat) (src_len : Nat) (dst : List Nat) :
    List Nat :=
  let min_len := min src_len N
  (copy_n src min_len dst).set min_len 0

end details

/-- Model of C `strlen`: number of chars before the first terminator. -/
def strlen (l : List Nat) : Nat := (l.takeWhile (fun c => c != 0)).length

/-- `stackie::sstring<N>`: the raw field `char s[N + 1]`. -/
structure sstring (N : Nat) where
  s : List Nat
  size_eq : s.length = N + 1

/-- `sstring<N>::c_str()`: the inner char array. -/
def sstring.c_str {N : Nat} (a : sstring N) : List Nat := a.s

/-- `sstring<N>::capacity()`. -/
def sstring.capacity (N : Nat) : Nat := N

/-- `sstring<N>::length()`: `std::strlen(s)`. -/
def sstring.length {N : Nat} (a : sstring N) : Nat := strlen a.s

lemma strlen_le_length (l : List Nat) : strlen l ≤ l.length := by
  induction l with
  | nil => exact Nat.le_refl 0
  | cons c t ih =>
      simp only [strlen, List.takeWhile_cons, List.length_cons]
      cases hc : (c != 0)
      · simp
      · simp only [if_true]
        exact Nat.succ_le_succ ih

lemma copy_n_impl_length (N : Nat) (src : List Nat) (src_len : Nat)
    (dst : List Nat) (h1 : min src_len N ≤ src.length)
    (h2 : min src_len N ≤ dst.length) :
    (details.copy_n_impl N src src_len dst).length = dst.length := by
  simp only [details.copy_n_impl, details.copy_n, List.length_set,
    List.length_append, List.length_take, List.length_drop]
  omega

lemma copy_n_impl_size (N : Nat) (src : List Nat) (src_len : Nat)
    (dst : List Nat) (h1 : src_len ≤ src.length) (h2 : dst.length = N + 1) :
    (details.copy_n_impl N src src_len dst).length = N + 1 := by
  rw [copy_n_impl_length N src src_len dst, h2]
  · exact le_trans (Nat.min_le_left _ _) h1
  · rw [h2]; exact le_trans (Nat.min_le_right _ _) (Nat.le_succ N)

/-- `sstring<N>::operator=(const sstring<M>&)`:
`copy_n_impl<N>(rhs.c_str(), M, s)`. -/
def sstring.assign_sstring {N M : Nat} (a : sstring N) (rhs : sstring M) :
    sstring N :=
  ⟨details.copy_n_impl N rhs.c_str M a.s,
    copy_n_impl_size N rhs.c_str M a.s
      (by rw [sstring.c_str, rhs.size_eq]; exact Nat.le_succ M) a.size_eq⟩

/-- `sstring<N>::operator=(const char (&rhs)[M])`:
`copy_n_impl<N>(rhs, M, s)`; the char array of declared size `M` is a list
of length `M`, so `src_len` is `rhs.length`. -/
def sstring.assign_char_array {N : Nat} (a : sstring N) (rhs : List Nat) :
    sstring N :=
  ⟨details.copy_n_impl N rhs rhs.length a.s,
    copy_n_impl_size N rhs rhs.length a.s (Nat.le_refl _) a.size_eq⟩

/-- `sstring<N>::operator=(const char rhs[])`:
`copy_n_impl<N>(rhs, strlen(rhs), s)`. -/
def sstring.assign_char_ptr {N : Nat} (a : sstring N) (rhs : List Nat) :
    sstring N :=
  ⟨details.copy_n_impl N rhs (strlen rhs) a.s,
    copy_n_impl_size N rhs (strlen rhs) a.s (strlen_le_length rhs) a.size_eq⟩

/-- `sstring<N>::operator=(const std::string&)`:
`copy_n_impl<N>(rhs.c_str(), rhs.length(), s)`. A `std::string` is its
content list `rhs`; its `c_str()` is `rhs ++ [0]`. -/
def sstring.assign_string {N : Nat} (a : sstring N) (rhs : List Nat) :
    sstring N :=
  ⟨details.copy_n_impl N (rhs ++ [0]) rhs.length a.s,
    copy_n_impl_size N (rhs ++ [0]) rhs.length a.s
      (by rw [List.length_append]; exact Nat.le_add_right _ _) a.size_eq⟩

/-- `sstring<N>::sstring()`: `s[0] = '\0'` over the uninitialized stack
memory `mem`. -/
def sstring.default_ctor (N : Nat) (mem : List Nat)
    (hm : mem.length = N + 1) : sstring N :=
  ⟨mem.set 0 0, by rw [List.length_set, hm]⟩

/-- `sstring<N>::sstring(const sstring<M>&)`: `*this = rhs` over
uninitialized memory. -/
def sstring.ctor_sstring (N : Nat) {M : Nat} (mem : List Nat)
    (hm : mem.length = N + 1) (rhs : sstring M) : sstring N :=
  sstring.assign_sstring ⟨mem, hm⟩ rhs

/-- `sstring<N>::sstring(const char (&rhs)[M])`: `*this = rhs`. -/
def sstring.ctor_char_array (N : Nat) (mem : List Nat)
    (hm : mem.length = N + 1) (rhs : List Nat) : sstring N :=
  sstring.assign_char_array ⟨mem, hm⟩ rhs

/-- `sstring<N>::sstring(const char rhs[])`: `*this = rhs`. -/
def sstring.ctor_char_ptr (N : Nat) (mem : List Nat)
    (hm : mem.length = N + 1) (rhs : List Nat) : sstring N :=
  sstring.assign_char_ptr ⟨mem, hm⟩ rhs

/-- `sstring<N>::sstring(const std::string&)`: `*this = rhs`. -/
def sstring.ctor_string (N : Nat) (mem : List Nat)
    (hm : mem.length = N + 1) (rhs : List Nat) : sstring N :=
  sstring.assign_string ⟨mem, hm⟩ rhs

/-! ### Helper lemmas about `strlen`, list access and `copy_n_impl` -/

lemma strlen_nil : strlen [] = 0 := rfl

lemma strlen_cons_zero (t : List Nat) : strlen (0 :: t) = 0 := rfl

lemma strlen_cons_ne (c : Nat) (t : List Nat) (h : c ≠ 0) :
    strlen (c :: t) = strlen t + 1 := by
  simp [strlen, List.takeWhile_cons, h]

lemma strlen_append_zero (l t : List Nat) : strlen (l ++ 0 :: t) = strlen l := by
  induction l with
  | nil => rfl
  | cons c l' ih =>
      by_cases hc : c = 0
      · subst hc; rfl
      · rw [List.cons_append, strlen_cons_ne c _ hc, strlen_cons_ne c _ hc, ih]

lemma strlen_take (n : Nat) (l : List Nat) :
    strlen (l.take n) = min n (strlen l) := by
  rw [strlen, ← List.take_takeWhile, List.length_take, strlen]

lemma strlen_eq_length_of_ne (l : List Nat) (h : ∀ c ∈ l, c ≠ 0) :
    strlen l = l.length := by
  induction l with
  | nil => rfl
  | cons c t ih =>
      rw [strlen_cons_ne c t (h c (List.mem_cons_self c t)), List.length_cons,
        ih fun x hx => h x (List.mem_cons_of_mem c hx)]

lemma getD_lt_strlen (l : List Nat) (i : Nat) (h : i < strlen l) :
    l.getD i 0 ≠ 0 := by
  induction l generalizing i with
  | nil => simp [strlen] at h
  | cons c t ih =>
      by_cases hc : c = 0
      · subst hc; rw [strlen_cons_zero] at h; omega
      · cases i with
        | zero => simpa using hc
        | succ i' =>
            rw [strlen_cons_ne c t hc] at h
            rw [List.getD_cons_succ]
            exact ih i' (by omega)

lemma strlen_lt_length_of_mem (l : List Nat) (h : (0 : Nat) ∈ l) :
    strlen l < l.length := by
  induction l with
  | nil => simp at h
  | cons c t ih =>
      by_cases hc : c = 0
      · subst hc; rw [strlen_cons_zero]; simp
      · rw [strlen_cons_ne c t hc, List.length_cons]
        have ht : (0 : Nat) ∈ t := by
          rcases List.mem_cons.mp h with h0 | h0
          · exact absurd h0.symm hc
          · exact h0
        exact Nat.succ_lt_succ (ih ht)

lemma getD_strlen_of_mem (l : List Nat) (h : (0 : Nat) ∈ l) :
    l.getD (strlen l) 0 = 0 := by
  induction l with
  | nil => simp at h
  | cons c t ih =>
      by_cases hc : c = 0
      · subst hc; rw [strlen_cons_zero, List.getD_cons_zero]
      · rw [strlen_cons_ne c t hc, List.getD_cons_succ]
        have ht : (0 : Nat) ∈ t := by
          rcases List.mem_cons.mp h with h0 | h0
          · exact absurd h0.symm hc
          · exact h0
        exact ih ht

lemma getD_drop (l : List Nat) (n i : Nat) :
    (l.drop n).getD i 0 = l.getD (n + i) 0 := by
  induction l generalizing n with
  | nil => simp
  | cons c t ih =>
      cases n with
      | zero => simp
      | succ n' =>
          rw [List.drop_succ_cons, Nat.succ_add, List.getD_cons_succ]
          exact ih n'

lemma getD_take_lt (l : List Nat) (n i : Nat) (h : i < n) :
    (l.take n).getD i 0 = l.getD i 0 := by
  rw [List.getD_eq_getElem?_getD, List.getD_eq_getElem?_getD,
    List.getElem?_take_of_lt h]

/-- Normal form of `copy_n_impl`: first `min(src_len, N)` source chars,
then the terminator, then the untouched tail of the destination. -/
lemma copy_n_impl_eq (N : Nat) (src : List Nat) (src_len : Nat)
    (dst : List Nat) (h1 : min src_len N ≤ src.length)
    (h2 : min src_len N < dst.length) :
    details.copy_n_impl N src src_len dst
      = src.take (min src_len N) ++ 0 :: dst.drop (min src_len N + 1) := by
  have hlen : (src.take (min src_len N)).length = min src_len N := by
    rw [List.length_take]
    exact Nat.min_eq_left h1
  show (details.copy_n src (min src_len N) dst).set (min src_len N) 0 = _
  rw [details.copy_n, List.set_append_right _ _ (le_of_eq hlen), hlen,
    Nat.sub_self, List.drop_eq_getElem_cons h2, List.set_cons_zero]

lemma copy_n_impl_getD_lt (N : Nat) (src : List Nat) (src_len : Nat)
    (dst : List Nat) (h1 : min src_len N ≤ src.length)
    (h2 : min src_len N < dst.length) (i : Nat)
    (hi : i < min src_len N) :
    (details.copy_n_impl N src src_len dst).getD i 0 = src.getD i 0 := by
  have hlt : i < (src.take (min src_len N)).length := by
    rw [List.length_take, Nat.min_eq_left h1]; exact hi
  rw [copy_n_impl_eq N src src_len dst h1 h2,
    List.getD_append _ _ _ _ hlt, getD_take_lt _ _ _ hi]

lemma copy_n_impl_getD_min (N : Nat) (src : List Nat) (src_len : Nat)
    (dst : List Nat) (h1 : min src_len N ≤ src.length)
    (h2 : min src_len N < dst.length) :
    (details.copy_n_impl N src src_len dst).getD (min src_len N) 0 = 0 := by
  have hlen : (src.take (min src_len N)).length = min src_len N := by
    rw [List.length_take]; exact Nat.min_eq_left h1
  rw [copy_n_impl_eq N src src_len dst h1 h2,
    List.getD_append_right _ _ _ _ (le_of_eq hlen), hlen, Nat.sub_self,
    List.getD_cons_zero]

lemma copy_n_impl_getD_gt (N : Nat) (src : List Nat) (src_len : Nat)
    (dst : List Nat) (h1 : min src_len N ≤ src.length)
    (h2 : min src_len N < dst.length) (i : Nat)
    (hi : min src_len N < i) :
    (details.copy_n_impl N src src_len dst).getD i 0 = dst.getD i 0 := by
  have hlen : (src.take (min src_len N)).length = min src_len N := by
    rw [List.length_take]; exact Nat.min_eq_left h1
  rw [copy_n_impl_eq N src src_len dst h1 h2,
    List.getD_append_right _ _ _ _ (by rw [hlen]; omega), hlen]
  have hsub : i - min src_len N = (i - min src_len N - 1) + 1 := by omega
  rw [hsub, List.getD_cons_succ, getD_drop]
  have : min src_len N + 1 + (i - min src_len N - 1) = i := by omega
  rw [this]

lemma copy_n_impl_strlen (N : Nat) (src : List Nat) (src_len : Nat)
    (dst : List Nat) (h1 : min src_len N ≤ src.length)
    (h2 : min src_len N < dst.length) :
    strlen (details.copy_n_impl N src src_len dst)
      = min (min src_len N) (strlen src) := by
  rw [copy_n_impl_eq N src src_len dst h1 h2, strlen_append_zero, strlen_take]

lemma min_le_sstring_buf {M : Nat} (N : Nat) (rhs : sstring M) :
    min M N ≤ rhs.s.length := by
  rw [rhs.size_eq]
  exact le_trans (Nat.min_le_left _ _) (Nat.le_succ _)

lemma min_lt_dst_buf {N : Nat} (a : sstring N) (k : Nat) :
    min k N < a.s.length := by
  rw [a.size_eq]
  exact Nat.lt_succ_of_le (Nat.min_le_right _ _)

lemma assign_sstring_s {N M : Nat} (a : sstring N) (rhs : sstring M) :
    (a.assign_sstring rhs).s = details.copy_n_impl N rhs.s M a.s := rfl

lemma assign_char_array_s {N : Nat} (a : sstring N) (rhs : List Nat) :
    (a.assign_char_array rhs).s = details.copy_n_impl N rhs rhs.length a.s :=
  rfl

lemma assign_char_ptr_s {N : Nat} (a : sstring N) (rhs : List Nat) :
    (a.assign_char_ptr rhs).s = details.copy_n_impl N rhs (strlen rhs) a.s :=
  rfl

lemma assign_string_s {N : Nat} (a : sstring N) (rhs : List Nat) :
    (a.assign_string rhs).s
      = details.copy_n_impl N (rhs ++ [0]) rhs.length a.s := rfl

/-- Model of `std::ostream::operator<<(const char*)`: append the chars
before the first terminator to the stream contents. -/
def ostream_write_cstr (stream : List Nat) (p : List Nat) : List Nat :=
  stream ++ p.takeWhile (fun c => c != 0)

/-- `operator<<(std::ostream&, const sstring<N>&)`: `stream << rhs.c_str()`.
The returned stream is the updated sink. -/
def op_stream {N : Nat} (stream : List Nat) (rhs : sstring N) : List Nat :=
  ostream_write_cstr stream rhs.c_str


/-! ### Concrete instances used to instantiate the theorems -/

/-- A concrete `sstring 2` whose buffer is arbitrary valid content. -/
def ex2 : sstring 2 := ⟨[104, 105, 0], rfl⟩

/-- A concrete `sstring 4` holding logical content "h" followed by raw
padding bytes after its terminator (length 1 < capacity 4). -/
def ex4 : sstring 4 := ⟨[104, 0, 98, 99, 0], rfl⟩

/-- A concrete `sstring 8` (capacity 8, logical content "hi"). -/
def ex8 : sstring 8 := ⟨[104, 105, 0, 7, 7, 7, 7, 7, 7], rfl⟩

/-! ### Claims -/

/-- **C1**: for every pair of capacities `N`, `M` and every source
`sstring<M>`, assigning (or copy-constructing) the source into an
`sstring<N>` copies exactly `min(N, M)` chars from the source's raw buffer
(destination char `i` equals raw source char `i` for every `i < min(N, M)`)
and then writes the terminator at destination offset `min(N, M)`; the copy
bound is the declared capacity `M`, not the source's logical length. -/
theorem C1_cross_capacity_copy {N M : Nat} (a : sstring N) (rhs : sstring M)
    (mem : List Nat) (hm : mem.length = N + 1) :
    ((∀ i, i < min N M →
        (a.assign_sstring rhs).s.getD i 0 = rhs.s.getD i 0) ∧
      (a.assign_sstring rhs).s.getD (min N M) 0 = 0) ∧
    ((∀ i, i < min N M →
        (sstring.ctor_sstring N mem hm rhs).s.getD i 0 = rhs.s.getD i 0) ∧
      (sstring.ctor_sstring N mem hm rhs).s.getD (min N M) 0 = 0) := by
  have key : ∀ b : sstring N,
      (∀ i, i < min N M →
        (b.assign_sstring rhs).s.getD i 0 = rhs.s.getD i 0) ∧
      (b.assign_sstring rhs).s.getD (min N M) 0 = 0 := by
    intro b
    have h1 : min M N ≤ rhs.s.length := min_le_sstring_buf N rhs
    have h2 : min M N < b.s.length := min_lt_dst_buf b M
    refine ⟨fun i hi => ?_, ?_⟩
    · rw [assign_sstring_s]
      exact copy_n_impl_getD_lt N rhs.s M b.s h1 h2 i
        (by rw [Nat.min_comm M N]; exact hi)
    · rw [assign_sstring_s, Nat.min_comm N M]
      exact copy_n_impl_getD_min N rhs.s M b.s h1 h2
  exact ⟨key a, key ⟨mem, hm⟩⟩

/-- Witness for C1 at `N = 2`, `M = 4`: the source has logical length 1 but
chars beyond its terminator are still copied up to the bound
`min(2, 4) = 2`. -/
theorem C1_cross_capacity_copy_witness :
    (ex2.assign_sstring ex4).s.getD 0 0 = ex4.s.getD 0 0 ∧
    (ex2.assign_sstring ex4).s.getD 1 0 = ex4.s.getD 1 0 ∧
    (ex2.assign_sstring ex4).s.getD (min 2 4) 0 = 0 ∧
    (sstring.ctor_sstring 2 [9, 9, 9] rfl ex4).s.getD 1 0
      = ex4.s.getD 1 0 ∧
    (sstring.ctor_sstring 2 [9, 9, 9] rfl ex4).s.getD (min 2 4) 0 = 0 :=
  ⟨(C1_cross_capacity_copy ex2 ex4 [9, 9, 9] rfl).1.1 0 (by decide),
    (C1_cross_capacity_copy ex2 ex4 [9, 9, 9] rfl).1.1 1 (by decide),
    (C1_cross_capacity_copy ex2 ex4 [9, 9, 9] rfl).1.2,
    (C1_cross_capacity_copy ex2 ex4 [9, 9, 9] rfl).2.1 1 (by decide),
    (C1_cross_capacity_copy ex2 ex4 [9, 9, 9] rfl).2.2⟩


lemma copy_n_impl_truncates (N : Nat) (S : List Nat) (src_len : Nat)
    (dst : List Nat) (hsl : src_len ≤ S.length) (hN : N ≤ src_len)
    (hdst : dst.length = N + 1) (hstr : N < strlen S) :
    strlen (details.copy_n_impl N S src_len dst) = N ∧
    (∀ i, i < N → (details.copy_n_impl N S src_len dst).getD i 0 = S.getD i 0) ∧
    (details.copy_n_impl N S src_len dst).getD N 0 = 0 := by
  have hmin : min src_len N = N := Nat.min_eq_right hN
  have h1 : min src_len N ≤ S.length := le_trans (Nat.min_le_left _ _) hsl
  have h2 : min src_len N < dst.length := by rw [hdst, hmin]; omega
  refine ⟨?_, fun i hi => ?_, ?_⟩
  · rw [copy_n_impl_strlen N S src_len dst h1 h2, hmin]
    exact Nat.min_eq_left (le_of_lt hstr)
  · exact copy_n_impl_getD_lt N S src_len dst h1 h2 i (by rw [hmin]; exact hi)
  · have := copy_n_impl_getD_min N S src_len dst h1 h2
    rwa [hmin] at this

/-- **C2**: for every capacity `N` and every null-terminated source char
sequence `S` with `len(S) > N` (`strlen S > N`), constructing an
`sstring<N>` from `S` (via the compile-time char array constructor, whose
declared size is `S`'s full extent, or via the runtime null-terminated
pointer constructor) yields `length() = N`, the first `N` chars of the
`c_str()` buffer equal the first `N` chars of `S`, and the char at offset
`N` is the terminator. -/
theorem C2_truncation {N : Nat} (S : List Nat) (mem₁ mem₂ : List Nat)
    (hm₁ : mem₁.length = N + 1) (hm₂ : mem₂.length = N + 1)
    (hterm : (0 : Nat) ∈ S) (hlen : N < strlen S) :
    ((sstring.ctor_char_array N mem₁ hm₁ S).length = N ∧
      (∀ i, i < N →
        (sstring.ctor_char_array N mem₁ hm₁ S).c_str.getD i 0 = S.getD i 0) ∧
      (sstring.ctor_char_array N mem₁ hm₁ S).c_str.getD N 0 = 0) ∧
    ((sstring.ctor_char_ptr N mem₂ hm₂ S).length = N ∧
      (∀ i, i < N →
        (sstring.ctor_char_ptr N mem₂ hm₂ S).c_str.getD i 0 = S.getD i 0) ∧
      (sstring.ctor_char_ptr N mem₂ hm₂ S).c_str.getD N 0 = 0) := by
  constructor
  · exact copy_n_impl_truncates N S S.length mem₁ (Nat.le_refl _)
      (le_of_lt (lt_of_lt_of_le hlen (strlen_le_length S))) hm₁ hlen
  · exact copy_n_impl_truncates N S (strlen S) mem₂ (strlen_le_length S)
      (le_of_lt hlen) hm₂ hlen

/-- Witness for C2 at `N = 2`, `S = "hij"` (`[104, 105, 106, 0]`,
`strlen S = 3 > 2`). -/
theorem C2_truncation_witness :
    (sstring.ctor_char_array 2 [9, 9, 9] rfl [104, 105, 106, 0]).length
      = 2 ∧
    (sstring.ctor_char_array 2 [9, 9, 9] rfl
        [104, 105, 106, 0]).c_str.getD 1 0
      = ([104, 105, 106, 0] : List Nat).getD 1 0 ∧
    (sstring.ctor_char_array 2 [9, 9, 9] rfl
        [104, 105, 106, 0]).c_str.getD 2 0 = 0 ∧
    (sstring.ctor_char_ptr 2 [8, 8, 8] rfl [104, 105, 106, 0]).length
      = 2 ∧
    (sstring.ctor_char_ptr 2 [8, 8, 8] rfl
        [104, 105, 106, 0]).c_str.getD 1 0
      = ([104, 105, 106, 0] : List Nat).getD 1 0 ∧
    (sstring.ctor_char_ptr 2 [8, 8, 8] rfl
        [104, 105, 106, 0]).c_str.getD 2 0 = 0 :=
  ⟨(C2_truncation [104, 105, 106, 0] [9, 9, 9] [8, 8, 8] rfl rfl
      (by decide) (by decide)).1.1,
    (C2_truncation [104, 105, 106, 0] [9, 9, 9] [8, 8, 8] rfl rfl
      (by decide) (by decide)).1.2.1 1 (by decide),
    (C2_truncation [104, 105, 106, 0] [9, 9, 9] [8, 8, 8] rfl rfl
      (by decide) (by decide)).1.2.2,
    (C2_truncation [104, 105, 106, 0] [9, 9, 9] [8, 8, 8] rfl rfl
      (by decide) (by decide)).2.1,
    (C2_truncation [104, 105, 106, 0] [9, 9, 9] [8, 8, 8] rfl rfl
      (by decide) (by decide)).2.2.1 1 (by decide),
    (C2_truncation [104, 105, 106, 0] [9, 9, 9] [8, 8, 8] rfl rfl
      (by decide) (by decide)).2.2.2⟩

lemma copy_n_impl_exact (N : Nat) (S : List Nat) (dst : List Nat)
    (hnz : ∀ c ∈ S, c ≠ 0) (hle : S.length ≤ N) (hdst : dst.length = N + 1) :
    strlen (details.copy_n_impl N (S ++ [0]) S.length dst) = S.length ∧
    (∀ i, i < S.length →
      (details.copy_n_impl N (S ++ [0]) S.length dst).getD i 0
        = S.getD i 0) ∧
    (details.copy_n_impl N (S ++ [0]) S.length dst).getD S.length 0 = 0 := by
  have hmin : min S.length N = S.length := Nat.min_eq_left hle
  have h1 : min S.length N ≤ (S ++ [0]).length := by
    rw [List.length_append]
    exact le_trans (Nat.min_le_left _ _) (Nat.le_add_right _ _)
  have h2 : min S.length N < dst.length := by
    rw [hdst]
    exact Nat.lt_succ_of_le (Nat.min_le_right _ _)
  have hstrS : strlen (S ++ [0]) = S.length := by
    rw [show (S ++ [0]) = S ++ 0 :: [] from rfl, strlen_append_zero,
      strlen_eq_length_of_ne S hnz]
  refine ⟨?_, fun i hi => ?_, ?_⟩
  · rw [copy_n_impl_strlen N (S ++ [0]) S.length dst h1 h2, hmin, hstrS,
      Nat.min_self]
  · rw [copy_n_impl_getD_lt N (S ++ [0]) S.length dst h1 h2 i
      (by rw [hmin]; exact hi)]
    exact List.getD_append _ _ _ _ hi
  · have := copy_n_impl_getD_min N (S ++ [0]) S.length dst h1 h2
    rwa [hmin] at this

/-- **C3**: for every capacity `N` and every source char sequence `S`
without interior terminator and with `len(S) ≤ N`, constructing an
`sstring<N>` from `S` via the runtime null-terminated pointer path (whose
in-memory form is `S ++ [0]`) or via the `std::string` path yields
`length() = len(S)`, a buffer whose first `len(S)` chars equal `S`, and the
terminator at offset `len(S)`. -/
theorem C3_roundtrip_under_capacity {N : Nat} (S : List Nat)
    (mem₁ mem₂ : List Nat) (hm₁ : mem₁.length = N + 1)
    (hm₂ : mem₂.length = N + 1) (hnz : ∀ c ∈ S, c ≠ 0)
    (hle : S.length ≤ N) :
    ((sstring.ctor_char_ptr N mem₁ hm₁ (S ++ [0])).length = S.length ∧
      (∀ i, i < S.length →
        (sstring.ctor_char_ptr N mem₁ hm₁ (S ++ [0])).c_str.getD i 0
          = S.getD i 0) ∧
      (sstring.ctor_char_ptr N mem₁ hm₁ (S ++ [0])).c_str.getD S.length 0
        = 0) ∧
    ((sstring.ctor_string N mem₂ hm₂ S).length = S.length ∧
      (∀ i, i < S.length →
        (sstring.ctor_string N mem₂ hm₂ S).c_str.getD i 0 = S.getD i 0) ∧
      (sstring.ctor_string N mem₂ hm₂ S).c_str.getD S.length 0 = 0) := by
  have hstrS : strlen (S ++ [0]) = S.length := by
    rw [show (S ++ [0]) = S ++ 0 :: [] from rfl, strlen_append_zero,
      strlen_eq_length_of_ne S hnz]
  constructor
  · have e1 : (sstring.ctor_char_ptr N mem₁ hm₁ (S ++ [0])).s
        = details.copy_n_impl N (S ++ [0]) S.length mem₁ := by
      show details.copy_n_impl N (S ++ [0]) (strlen (S ++ [0])) mem₁ = _
      rw [hstrS]
    have key := copy_n_impl_exact N S mem₁ hnz hle hm₁
    refine ⟨?_, fun i hi => ?_, ?_⟩
    · show strlen (sstring.ctor_char_ptr N mem₁ hm₁ (S ++ [0])).s = S.length
      rw [e1]; exact key.1
    · show (sstring.ctor_char_ptr N mem₁ hm₁ (S ++ [0])).s.getD i 0
        = S.getD i 0
      rw [e1]; exact key.2.1 i hi
    · show (sstring.ctor_char_ptr N mem₁ hm₁ (S ++ [0])).s.getD S.length 0
        = 0
      rw [e1]; exact key.2.2
  · exact copy_n_impl_exact N S mem₂ hnz hle hm₂

/-- Witness for C3 at `N = 4`, `S = "hi"` (`[104, 105]`). -/
theorem C3_roundtrip_witness :
    (sstring.ctor_char_ptr 4 [9, 9, 9, 9, 9] rfl
        ([104, 105] ++ [0])).length = 2 ∧
    (sstring.ctor_char_ptr 4 [9, 9, 9, 9, 9] rfl
        ([104, 105] ++ [0])).c_str.getD 1 0
      = ([104, 105] : List Nat).getD 1 0 ∧
    (sstring.ctor_char_ptr 4 [9, 9, 9, 9, 9] rfl
        ([104, 105] ++ [0])).c_str.getD 2 0 = 0 ∧
    (sstring.ctor_string 4 [8, 8, 8, 8, 8] rfl [104, 105]).length = 2 ∧
    (sstring.ctor_string 4 [8, 8, 8, 8, 8] rfl
        [104, 105]).c_str.getD 1 0
      = ([104, 105] : List Nat).getD 1 0 ∧
    (sstring.ctor_string 4 [8, 8, 8, 8, 8] rfl
        [104, 105]).c_str.getD 2 0 = 0 :=
  ⟨(C3_roundtrip_under_capacity [104, 105] [9, 9, 9, 9, 9] [8, 8, 8, 8, 8]
      rfl rfl (by decide) (by decide)).1.1,
    (C3_roundtrip_under_capacity [104, 105] [9, 9, 9, 9, 9] [8, 8, 8, 8, 8]
      rfl rfl (by decide) (by decide)).1.2.1 1 (by decide),
    (C3_roundtrip_under_capacity [104, 105] [9, 9, 9, 9, 9] [8, 8, 8, 8, 8]
      rfl rfl (by decide) (by decide)).1.2.2,
    (C3_roundtrip_under_capacity [104, 105] [9, 9, 9, 9, 9] [8, 8, 8, 8, 8]
      rfl rfl (by decide) (by decide)).2.1,
    (C3_roundtrip_under_capacity [104, 105] [9, 9, 9, 9, 9] [8, 8, 8, 8, 8]
      rfl rfl (by decide) (by decide)).2.2.1 1 (by decide),
    (C3_roundtrip_under_capacity [104, 105] [9, 9, 9, 9, 9] [8, 8, 8, 8, 8]
      rfl rfl (by decide) (by decide)).2.2.2⟩

lemma copy_n_impl_terminated (N : Nat) (src : List Nat) (src_len : Nat)
    (dst : List Nat) (h1 : min src_len N ≤ src.length)
    (hdst : dst.length = N + 1) :
    strlen (details.copy_n_impl N src src_len dst) ≤ N ∧
    (details.copy_n_impl N src src_len dst).getD
      (strlen (details.copy_n_impl N src src_len dst)) 0 = 0 ∧
    (∀ i, i < strlen (details.copy_n_impl N src src_len dst) →
      (details.copy_n_impl N src src_len dst).getD i 0 ≠ 0) := by
  have h2 : min src_len N < dst.length := by
    rw [hdst]
    exact Nat.lt_succ_of_le (Nat.min_le_right _ _)
  have hmem : (0 : Nat) ∈ details.copy_n_impl N src src_len dst := by
    rw [copy_n_impl_eq N src src_len dst h1 h2]
    exact List.mem_append_right _ (List.mem_cons_self _ _)
  refine ⟨?_, getD_strlen_of_mem _ hmem, fun i hi => getD_lt_strlen _ i hi⟩
  rw [copy_n_impl_strlen N src src_len dst h1 h2]
  exact le_trans (Nat.min_le_left _ _) (Nat.min_le_right _ _)

/-- Invariants I1/I2 packaged: `length() ≤ N`, the char at offset
`length()` is the terminator, and `length()` is the position of the first
terminator (all chars strictly before it are nonzero). -/
def well_terminated {N : Nat} (r : sstring N) : Prop :=
  r.length ≤ N ∧ r.c_str.getD r.length 0 = 0 ∧
    ∀ i, i < r.length → r.c_str.getD i 0 ≠ 0

/-- **C4**: after every assignment and every construction of an
`sstring<N>` from any of the four source shapes, the buffer char at index
`length()` is the terminator, `length() ≤ N`, and `length()` is the
position of the first terminator char in the buffer. -/
theorem C4_terminator_invariant {N M : Nat} (a₁ a₂ a₃ a₄ : sstring N)
    (mem₁ mem₂ mem₃ mem₄ : List Nat) (hm₁ : mem₁.length = N + 1)
    (hm₂ : mem₂.length = N + 1) (hm₃ : mem₃.length = N + 1)
    (hm₄ : mem₄.length = N + 1) (rhsS : sstring M)
    (arr ptr stdS : List Nat) :
    well_terminated (a₁.assign_sstring rhsS) ∧
    well_terminated (a₂.assign_char_array arr) ∧
    well_terminated (a₃.assign_char_ptr ptr) ∧
    well_terminated (a₄.assign_string stdS) ∧
    well_terminated (sstring.ctor_sstring N mem₁ hm₁ rhsS) ∧
    well_terminated (sstring.ctor_char_array N mem₂ hm₂ arr) ∧
    well_terminated (sstring.ctor_char_ptr N mem₃ hm₃ ptr) ∧
    well_terminated (sstring.ctor_string N mem₄ hm₄ stdS) := by
  have k₁ : ∀ b : sstring N, well_terminated (b.assign_sstring rhsS) :=
    fun b => copy_n_impl_terminated N rhsS.s M b.s
      (min_le_sstring_buf N rhsS) b.size_eq
  have k₂ : ∀ b : sstring N, well_terminated (b.assign_char_array arr) :=
    fun b => copy_n_impl_terminated N arr arr.length b.s
      (Nat.min_le_left _ _) b.size_eq
  have k₃ : ∀ b : sstring N, well_terminated (b.assign_char_ptr ptr) :=
    fun b => copy_n_impl_terminated N ptr (strlen ptr) b.s
      (le_trans (Nat.min_le_left _ _) (strlen_le_length ptr)) b.size_eq
  have k₄ : ∀ b : sstring N, well_terminated (b.assign_string stdS) :=
    fun b => copy_n_impl_terminated N (stdS ++ [0]) stdS.length b.s
      (by
        rw [List.length_append]
        exact le_trans (Nat.min_le_left _ _) (Nat.le_add_right _ _))
      b.size_eq
  exact ⟨k₁ a₁, k₂ a₂, k₃ a₃, k₄ a₄, k₁ ⟨mem₁, hm₁⟩, k₂ ⟨mem₂, hm₂⟩,
    k₃ ⟨mem₃, hm₃⟩, k₄ ⟨mem₄, hm₄⟩⟩

/-- Witness for C4 at `N = 2`, `M = 4`, source content "hi"/"hij". -/
theorem C4_terminator_invariant_witness :
    well_terminated (ex2.assign_sstring ex4) ∧
    well_terminated (ex2.assign_char_array [104, 105, 106, 0]) ∧
    well_terminated (ex2.assign_char_ptr [104, 105, 106, 0]) ∧
    well_terminated (ex2.assign_string [104, 105, 106]) ∧
    well_terminated (sstring.ctor_sstring 2 [9, 9, 9] rfl ex4) ∧
    well_terminated
      (sstring.ctor_char_array 2 [9, 9, 9] rfl [104, 105, 106, 0]) ∧
    well_terminated
      (sstring.ctor_char_ptr 2 [9, 9, 9] rfl [104, 105, 106, 0]) ∧
    well_terminated (sstring.ctor_string 2 [9, 9, 9] rfl [104, 105, 106]) :=
  C4_terminator_invariant ex2 ex2 ex2 ex2 [9, 9, 9] [9, 9, 9] [9, 9, 9]
    [9, 9, 9] rfl rfl rfl rfl ex4 [104, 105, 106, 0] [104, 105, 106, 0]
    [104, 105, 106]

/-- **C5**: the truncating-copy primitive `copy_n_impl<N>` reads at most
the declared bound (`min(src_len, N) ≤ src_len` chars: its result depends
only on the first `min(src_len, N)` chars of the source) and writes only
destination indices `0 .. min(src_len, N) ≤ N` (the destination keeps its
size and every char past `min(src_len, N)` unchanged); moreover in every
construction/assignment path the source bound is within the source's real
extent and the write index is within the destination buffer, so no access
is out of bounds. -/
theorem C5_copy_safety {N M : Nat} (src src' dst : List Nat)
    (src_len : Nat) (a : sstring N) (rhs : sstring M)
    (arr ptr stdS : List Nat) :
    (min src_len N ≤ src_len ∧ min src_len N ≤ N) ∧
    (src.take (min src_len N) = src'.take (min src_len N) →
      details.copy_n_impl N src src_len dst
        = details.copy_n_impl N src' src_len dst) ∧
    (min src_len N ≤ src.length → min src_len N < dst.length →
      (details.copy_n_impl N src src_len dst).length = dst.length ∧
      ∀ i, min src_len N < i →
        (details.copy_n_impl N src src_len dst).getD i 0 = dst.getD i 0) ∧
    (min M N < rhs.s.length ∧ min arr.length N ≤ arr.length ∧
      min (strlen ptr) N ≤ ptr.length ∧
      min stdS.length N < (stdS ++ [0]).length ∧
      min src_len N < a.s.length) := by
  refine ⟨⟨Nat.min_le_left _ _, Nat.min_le_right _ _⟩, fun h => ?_,
    fun h1 h2 => ⟨copy_n_impl_length N src src_len dst h1 (le_of_lt h2),
      fun i hi => copy_n_impl_getD_gt N src src_len dst h1 h2 i hi⟩,
    ?_, Nat.min_le_left _ _,
    le_trans (Nat.min_le_left _ _) (strlen_le_length ptr), ?_,
    min_lt_dst_buf a src_len⟩
  · show (details.copy_n src (min src_len N) dst).set (min src_len N) 0
      = (details.copy_n src' (min src_len N) dst).set (min src_len N) 0
    rw [details.copy_n, details.copy_n, h]
  · rw [rhs.size_eq]
    exact Nat.lt_succ_of_le (Nat.min_le_left _ _)
  · rw [List.length_append]
    exact Nat.lt_succ_of_le (Nat.min_le_left _ _)

/-- Witness for C5 at `N = 2` with concrete buffers. -/
theorem C5_copy_safety_witness :
    (min 3 2 ≤ 3 ∧ min 3 2 ≤ 2) ∧
    details.copy_n_impl 2 [104, 105, 106] 3 [9, 9, 9]
      = details.copy_n_impl 2 [104, 105, 200] 3 [9, 9, 9] ∧
    (details.copy_n_impl 2 [104, 105, 106] 3 [9, 9, 9]).length
      = ([9, 9, 9] : List Nat).length ∧
    (details.copy_n_impl 2 [104, 105, 106] 3 [9, 9, 9]).getD 5 0
      = ([9, 9, 9] : List Nat).getD 5 0 ∧
    (min 4 2 < ex4.s.length ∧
      min ([104, 105, 106, 0] : List Nat).length 2
        ≤ ([104, 105, 106, 0] : List Nat).length ∧
      min (strlen [104, 105, 106, 0]) 2
        ≤ ([104, 105, 106, 0] : List Nat).length ∧
      min ([104, 105, 106] : List Nat).length 2
        < (([104, 105, 106] : List Nat) ++ [0]).length ∧
      min 3 2 < ex2.s.length) :=
  ⟨(C5_copy_safety [104, 105, 106] [104, 105, 200] [9, 9, 9] 3 ex2 ex4
      [104, 105, 106, 0] [104, 105, 106, 0] [104, 105, 106]).1,
    (C5_copy_safety [104, 105, 106] [104, 105, 200] [9, 9, 9] 3 ex2 ex4
      [104, 105, 106, 0] [104, 105, 106, 0] [104, 105, 106]).2.1
      (by decide),
    ((C5_copy_safety [104, 105, 106] [104, 105, 200] [9, 9, 9] 3 ex2 ex4
      [104, 105, 106, 0] [104, 105, 106, 0] [104, 105, 106]).2.2.1
      (by decide) (by decide)).1,
    ((C5_copy_safety [104, 105, 106] [104, 105, 200] [9, 9, 9] 3 ex2 ex4
      [104, 105, 106, 0] [104, 105, 106, 0] [104, 105, 106]).2.2.1
      (by decide) (by decide)).2 5 (by decide),
    (C5_copy_safety [104, 105, 106] [104, 105, 200] [9, 9, 9] 3 ex2 ex4
      [104, 105, 106, 0] [104, 105, 106, 0] [104, 105, 106]).2.2.2⟩

lemma drop_succ_set_zero (l : List Nat) (b : Nat) (m : Nat) :
    (l.set 0 b).drop (m + 1) = l.drop (m + 1) := by
  cases l with
  | nil => rfl
  | cons c t => rfl

lemma copy_n_impl_set_zero (N : Nat) (src : List Nat) (src_len : Nat)
    (mem : List Nat) (h1 : min src_len N ≤ src.length)
    (h2 : min src_len N < mem.length) :
    details.copy_n_impl N src src_len (mem.set 0 0)
      = details.copy_n_impl N src src_len mem := by
  have h2' : min src_len N < (mem.set 0 0).length := by
    rw [List.length_set]; exact h2
  rw [copy_n_impl_eq N src src_len _ h1 h2',
    copy_n_impl_eq N src src_len mem h1 h2, drop_succ_set_zero]

/-- **C6**: for each of the four source shapes, constructing an
`sstring<N>` from that source over stack memory `mem` produces the same
buffer content and the same `length()` as default-constructing over `mem`
and then assigning the same source. -/
theorem C6_ctor_funnels_to_assign {N M : Nat} (mem : List Nat)
    (hm : mem.length = N + 1) (rhsS : sstring M) (arr ptr stdS : List Nat) :
    ((sstring.ctor_sstring N mem hm rhsS).s
        = ((sstring.default_ctor N mem hm).assign_sstring rhsS).s ∧
      (sstring.ctor_sstring N mem hm rhsS).length
        = ((sstring.default_ctor N mem hm).assign_sstring rhsS).length) ∧
    ((sstring.ctor_char_array N mem hm arr).s
        = ((sstring.default_ctor N mem hm).assign_char_array arr).s ∧
      (sstring.ctor_char_array N mem hm arr).length
        = ((sstring.default_ctor N mem hm).assign_char_array arr).length) ∧
    ((sstring.ctor_char_ptr N mem hm ptr).s
        = ((sstring.default_ctor N mem hm).assign_char_ptr ptr).s ∧
      (sstring.ctor_char_ptr N mem hm ptr).length
        = ((sstring.default_ctor N mem hm).assign_char_ptr ptr).length) ∧
    ((sstring.ctor_string N mem hm stdS).s
        = ((sstring.default_ctor N mem hm).assign_string stdS).s ∧
      (sstring.ctor_string N mem hm stdS).length
        = ((sstring.default_ctor N mem hm).assign_string stdS).length) := by
  have hmem : ∀ k : Nat, min k N < mem.length := by
    intro k
    rw [hm]
    exact Nat.lt_succ_of_le (Nat.min_le_right _ _)
  have e₁ : ((sstring.default_ctor N mem hm).assign_sstring rhsS).s
      = (sstring.ctor_sstring N mem hm rhsS).s :=
    copy_n_impl_set_zero N rhsS.s M mem (min_le_sstring_buf N rhsS) (hmem M)
  have e₂ : ((sstring.default_ctor N mem hm).assign_char_array arr).s
      = (sstring.ctor_char_array N mem hm arr).s :=
    copy_n_impl_set_zero N arr arr.length mem (Nat.min_le_left _ _)
      (hmem arr.length)
  have e₃ : ((sstring.default_ctor N mem hm).assign_char_ptr ptr).s
      = (sstring.ctor_char_ptr N mem hm ptr).s :=
    copy_n_impl_set_zero N ptr (strlen ptr) mem
      (le_trans (Nat.min_le_left _ _) (strlen_le_length ptr))
      (hmem (strlen ptr))
  have e₄ : ((sstring.default_ctor N mem hm).assign_string stdS).s
      = (sstring.ctor_string N mem hm stdS).s :=
    copy_n_impl_set_zero N (stdS ++ [0]) stdS.length mem
      (by
        rw [List.length_append]
        exact le_trans (Nat.min_le_left _ _) (Nat.le_add_right _ _))
      (hmem stdS.length)
  exact ⟨⟨e₁.symm, congrArg strlen e₁.symm⟩, ⟨e₂.symm, congrArg strlen e₂.symm⟩,
    ⟨e₃.symm, congrArg strlen e₃.symm⟩, ⟨e₄.symm, congrArg strlen e₄.symm⟩⟩

/-- Witness for C6 at `N = 2` over concrete memory `[9, 9, 9]`. -/
theorem C6_ctor_funnels_witness :
    ((sstring.ctor_sstring 2 [9, 9, 9] rfl ex4).s
        = ((sstring.default_ctor 2 [9, 9, 9] rfl).assign_sstring ex4).s ∧
      (sstring.ctor_sstring 2 [9, 9, 9] rfl ex4).length
        = ((sstring.default_ctor 2 [9, 9, 9] rfl).assign_sstring
            ex4).length) ∧
    ((sstring.ctor_char_array 2 [9, 9, 9] rfl [104, 0]).s
        = ((sstring.default_ctor 2 [9, 9, 9] rfl).assign_char_array
            [104, 0]).s ∧
      (sstring.ctor_char_array 2 [9, 9, 9] rfl [104, 0]).length
        = ((sstring.default_ctor 2 [9, 9, 9] rfl).assign_char_array
            [104, 0]).length) ∧
    ((sstring.ctor_char_ptr 2 [9, 9, 9] rfl [104, 0]).s
        = ((sstring.default_ctor 2 [9, 9, 9] rfl).assign_char_ptr
            [104, 0]).s ∧
      (sstring.ctor_char_ptr 2 [9, 9, 9] rfl [104, 0]).length
        = ((sstring.default_ctor 2 [9, 9, 9] rfl).assign_char_ptr
            [104, 0]).length) ∧
    ((sstring.ctor_string 2 [9, 9, 9] rfl [104]).s
        = ((sstring.default_ctor 2 [9, 9, 9] rfl).assign_string [104]).s ∧
      (sstring.ctor_string 2 [9, 9, 9] rfl [104]).length
        = ((sstring.default_ctor 2 [9, 9, 9] rfl).assign_string
            [104]).length) :=
  C6_ctor_funnels_to_assign [9, 9, 9] rfl ex4 [104, 0] [104, 0] [104]

lemma drop_append_cons (A : List Nat) (b : Nat) (B : List Nat) :
    (A ++ b :: B).drop (A.length + 1) = B := by
  induction A with
  | nil => rfl
  | cons c t ih => exact ih

lemma drop_append_cons_len (A : List Nat) (b : Nat) (B : List Nat)
    (m : Nat) (hA : A.length = m) : (A ++ b :: B).drop (m + 1) = B := by
  rw [← hA]
  exact drop_append_cons A b B

lemma copy_n_impl_idem (N : Nat) (src : List Nat) (src_len : Nat)
    (dst : List Nat) (h1 : min src_len N ≤ src.length)
    (h2 : min src_len N < dst.length) :
    details.copy_n_impl N src src_len (details.copy_n_impl N src src_len dst)
      = details.copy_n_impl N src src_len dst := by
  have h2' : min src_len N
      < (details.copy_n_impl N src src_len dst).length := by
    rw [copy_n_impl_length N src src_len dst h1 (le_of_lt h2)]
    exact h2
  have hlen : (src.take (min src_len N)).length = min src_len N := by
    rw [List.length_take]; exact Nat.min_eq_left h1
  rw [copy_n_impl_eq N src src_len _ h1 h2',
    copy_n_impl_eq N src src_len dst h1 h2,
    drop_append_cons_len _ 0 _ _ hlen]

/-- **C7**: for every capacity `N`, every source of any of the four shapes
and every starting state, assigning the source twice in a row yields
exactly the same buffer state (content and length) as assigning it once. -/
theorem C7_idempotent_assign {N M : Nat} (a₁ a₂ a₃ a₄ : sstring N)
    (rhsS : sstring M) (arr ptr stdS : List Nat) :
    (((a₁.assign_sstring rhsS).assign_sstring rhsS).s
        = (a₁.assign_sstring rhsS).s ∧
      ((a₁.assign_sstring rhsS).assign_sstring rhsS).length
        = (a₁.assign_sstring rhsS).length) ∧
    (((a₂.assign_char_array arr).assign_char_array arr).s
        = (a₂.assign_char_array arr).s ∧
      ((a₂.assign_char_array arr).assign_char_array arr).length
        = (a₂.assign_char_array arr).length) ∧
    (((a₃.assign_char_ptr ptr).assign_char_ptr ptr).s
        = (a₃.assign_char_ptr ptr).s ∧
      ((a₃.assign_char_ptr ptr).assign_char_ptr ptr).length
        = (a₃.assign_char_ptr ptr).length) ∧
    (((a₄.assign_string stdS).assign_string stdS).s
        = (a₄.assign_string stdS).s ∧
      ((a₄.assign_string stdS).assign_string stdS).length
        = (a₄.assign_string stdS).length) := by
  have e₁ : ((a₁.assign_sstring rhsS).assign_sstring rhsS).s
      = (a₁.assign_sstring rhsS).s :=
    copy_n_impl_idem N rhsS.s M a₁.s (min_le_sstring_buf N rhsS)
      (min_lt_dst_buf a₁ M)
  have e₂ : ((a₂.assign_char_array arr).assign_char_array arr).s
      = (a₂.assign_char_array arr).s :=
    copy_n_impl_idem N arr arr.length a₂.s (Nat.min_le_left _ _)
      (min_lt_dst_buf a₂ arr.length)
  have e₃ : ((a₃.assign_char_ptr ptr).assign_char_ptr ptr).s
      = (a₃.assign_char_ptr ptr).s :=
    copy_n_impl_idem N ptr (strlen ptr) a₃.s
      (le_trans (Nat.min_le_left _ _) (strlen_le_length ptr))
      (min_lt_dst_buf a₃ (strlen ptr))
  have e₄ : ((a₄.assign_string stdS).assign_string stdS).s
      = (a₄.assign_string stdS).s :=
    copy_n_impl_idem N (stdS ++ [0]) stdS.length a₄.s
      (by
        rw [List.length_append]
        exact le_trans (Nat.min_le_left _ _) (Nat.le_add_right _ _))
      (min_lt_dst_buf a₄ stdS.length)
  exact ⟨⟨e₁, congrArg strlen e₁⟩, ⟨e₂, congrArg strlen e₂⟩,
    ⟨e₃, congrArg strlen e₃⟩, ⟨e₄, congrArg strlen e₄⟩⟩

lemma takeWhile_eq_take_strlen (l : List Nat) :
    l.takeWhile (fun c => c != 0) = l.take (strlen l) := by
  induction l with
  | nil => rfl
  | cons c t ih =>
      by_cases hc : c = 0
      · subst hc; rfl
      · rw [strlen_cons_ne c t hc]
        rw [List.takeWhile_cons_of_pos (by simpa using hc), List.take_succ_cons,
          ih]

/-- **C8**: the stream-insertion operator writes exactly the instance's
logical content — the chars of the buffer strictly before the first
terminator, i.e. the first `length()` chars of `c_str()` — into the output
sink, and returns that same sink (the result is the sink with exactly that
content appended). -/
theorem C8_stream_writes_logical_content {N : Nat} (stream : List Nat)
    (rhs : sstring N) :
    op_stream stream rhs = stream ++ rhs.c_str.take rhs.length := by
  show stream ++ rhs.c_str.takeWhile (fun c => c != 0)
    = stream ++ rhs.c_str.take rhs.length
  rw [takeWhile_eq_take_strlen]
  rfl

/-- **C9**: after assigning an `sstring<M>` source into an `sstring<N>`,
the destination's `length()` equals `min(N, source.length())`: although the
copy bound is the declared capacity `M`, the source's own terminator is
copied along whenever its logical length is below the bound. (The source
must satisfy invariant I2, `source.length() ≤ M`, which holds for every
constructed source.) -/
theorem C9_assign_sstring_length {N M : Nat} (a : sstring N)
    (rhs : sstring M) (hvalid : rhs.length ≤ M) :
    (a.assign_sstring rhs).length = min N rhs.length := by
  show strlen (details.copy_n_impl N rhs.s M a.s) = min N (strlen rhs.s)
  rw [copy_n_impl_strlen N rhs.s M a.s (min_le_sstring_buf N rhs)
    (min_lt_dst_buf a M), min_assoc]
  exact Nat.min_eq_right (le_trans (min_le_right N (strlen rhs.s)) hvalid)

/-- Witness for C9 at `N = 2`, `M = 4`: the source `ex4` has logical
length 1, so the destination length is `min 2 1 = 1`, not `min 2 4`. -/
theorem C9_assign_sstring_length_witness :
    ex4.length ≤ 4 ∧ (ex2.assign_sstring ex4).length = min 2 ex4.length :=
  ⟨by decide, C9_assign_sstring_length ex2 ex4 (by decide)⟩

/-- **C10**: every assignment to an `sstring<N>` writes only destination
indices `0` through `min(source_count, N)`; every buffer char at an index
strictly greater than `min(source_count, N)` keeps the value it had before
the assignment, where `source_count` is `M` for an `sstring<M>` source, the
declared size for a `char[M]` source, `strlen` for a `char*` source and
`length()` for a `std::string` source. -/
theorem C10_frame_beyond_terminator {N M : Nat} (a₁ a₂ a₃ a₄ : sstring N)
    (rhsS : sstring M) (arr ptr stdS : List Nat) :
    (∀ i, min M N < i →
      (a₁.assign_sstring rhsS).s.getD i 0 = a₁.s.getD i 0) ∧
    (∀ i, min arr.length N < i →
      (a₂.assign_char_array arr).s.getD i 0 = a₂.s.getD i 0) ∧
    (∀ i, min (strlen ptr) N < i →
      (a₃.assign_char_ptr ptr).s.getD i 0 = a₃.s.getD i 0) ∧
    (∀ i, min stdS.length N < i →
      (a₄.assign_string stdS).s.getD i 0 = a₄.s.getD i 0) :=
  ⟨fun i hi => copy_n_impl_getD_gt N rhsS.s M a₁.s
      (min_le_sstring_buf N rhsS) (min_lt_dst_buf a₁ M) i hi,
    fun i hi => copy_n_impl_getD_gt N arr arr.length a₂.s
      (Nat.min_le_left _ _) (min_lt_dst_buf a₂ arr.length) i hi,
    fun i hi => copy_n_impl_getD_gt N ptr (strlen ptr) a₃.s
      (le_trans (Nat.min_le_left _ _) (strlen_le_length ptr))
      (min_lt_dst_buf a₃ (strlen ptr)) i hi,
    fun i hi => copy_n_impl_getD_gt N (stdS ++ [0]) stdS.length a₄.s
      (by
        rw [List.length_append]
        exact le_trans (Nat.min_le_left _ _) (Nat.le_add_right _ _))
      (min_lt_dst_buf a₄ stdS.length) i hi⟩

/-- Witness for C10 at `N = 8`: assigning the 2-char content "hi" into
`ex8` leaves the chars past the written terminator unchanged. -/
theorem C10_frame_witness :
    (ex8.assign_sstring ex2).s.getD 4 0 = ex8.s.getD 4 0 ∧
    (ex8.assign_char_array [104, 105, 0]).s.getD 4 0 = ex8.s.getD 4 0 ∧
    (ex8.assign_char_ptr [104, 105, 0]).s.getD 4 0 = ex8.s.getD 4 0 ∧
    (ex8.assign_string [104, 105]).s.getD 4 0 = ex8.s.getD 4 0 :=
  ⟨(C10_frame_beyond_terminator ex8 ex8 ex8 ex8 ex2 [104, 105, 0]
      [104, 105, 0] [104, 105]).1 4 (by decide),
    (C10_frame_beyond_terminator ex8 ex8 ex8 ex8 ex2 [104, 105, 0]
      [104, 105, 0] [104, 105]).2.1 4 (by decide),
    (C10_frame_beyond_terminator ex8 ex8 ex8 ex8 ex2 [104, 105, 0]
      [104, 105, 0] [104, 105]).2.2.1 4 (by decide),
    (C10_frame_beyond_terminator ex8 ex8 ex8 ex8 ex2 [104, 105, 0]
      [104, 105, 0] [104, 105]).2.2.2 4 (by decide)⟩

end stackie
